import Mathlib

/- A shallow embedding of the markdown-to-HTML renderer (markdownToHTML) and the
   MathJax shielding pass (the extract/restore placeholder logic of
   renderContent) of the chat-message component.  JavaScript strings are
   modelled as List Char.  Every JavaScript regex replacement of the source is
   embedded as a left-to-right scanner with the matching semantics of the
   source pattern: the dot does not match the line terminators LF and CR,
   multiline anchors hold at the start and after every LF, non-greedy
   repetitions stop at the first viable closer, a failed match attempt advances
   the scan by one character, and String.prototype.replace with a string
   replacement performs the GetSubstitution expansion of dollar escapes.
   Scanners carry an explicit fuel argument; fuel = input length + 1 always
   suffices since every step consumes at least one character, and an exhausted
   scanner emits the rest of its input unchanged. -/

namespace KLAI

def toL (s : String) : List Char := s.data

/-- The backtick character (96). -/
def tick : Char := '\x60'

/-- The space character. -/
def spaceC : Char := '\x20'

/-- The apostrophe character (39). -/
def quoteC : Char := '\x27'

/-- JavaScript whitespace class restricted to ASCII (the inputs considered
contain no exotic Unicode whitespace). -/
def isWs (c : Char) : Bool :=
  c = spaceC || c = '\t' || c = '\n' || c = '\r' || c = '\x0b' || c = '\x0c'

/-- String.prototype.trim restricted to ASCII whitespace. -/
def trimL (s : List Char) : List Char :=
  ((s.dropWhile isWs).reverse.dropWhile isWs).reverse

/-- JavaScript String.prototype.split with a one-character separator:
"".split(sep) = [""] and separators delimit possibly empty fields. -/
def jsSplitChar (sep : Char) : List Char → List (List Char)
  | [] => [[]]
  | c :: rest =>
    if c = sep then [] :: jsSplitChar sep rest
    else
      match jsSplitChar sep rest with
      | [] => [[c]]
      | x :: xs => (c :: x) :: xs

/-- Array.prototype.slice(1, -1): drop the first and the last element. -/
def slice1m1 (l : List (List Char)) : List (List Char) :=
  (l.drop 1).dropLast

/-- Split a string at the first occurrence of the character c, the
occurrence excluded; none when c does not occur. -/
def splitAtChar? (c : Char) : List Char → Option (List Char × List Char)
  | [] => none
  | x :: rest =>
    if x = c then some ([], rest)
    else
      match splitAtChar? c rest with
      | none => none
      | some (a, b) => some (x :: a, b)

/-- Split a string at the first occurrence of the substring pat, the
occurrence excluded; none when pat does not occur. -/
def splitAtSub? (pat : List Char) : List Char → Option (List Char × List Char)
  | [] => if pat.isEmpty then some ([], []) else none
  | c :: rest =>
    if pat.isPrefixOf (c :: rest) then some ([], (c :: rest).drop pat.length)
    else
      match splitAtSub? pat rest with
      | none => none
      | some (a, b) => some (c :: a, b)

/-- Whether pat occurs as a contiguous substring of s. -/
def hasSub (pat s : List Char) : Bool :=
  match splitAtSub? pat s with
  | some _ => true
  | none => false

/- ------------------------------------------------------------------ -/
/- Math shielding pass (renderContent): extraction.                    -/
/- ------------------------------------------------------------------ -/

/-- The sentinel string of renderContent. -/
def placeholder : List Char := toL "___MATHJAX_PLACEHOLDER___"

/-- The token substituted for math block number i:
placeholder + i + placeholder. -/
def phTok (i : Nat) : List Char := placeholder ++ (Nat.repr i).data ++ placeholder

/-- Find the first occurrence of the closing delimiter "$$"; on success return
the content before it and the remainder after it. -/
def findDD : List Char → Option (List Char × List Char)
  | [] => none
  | [_] => none
  | c :: d :: rest =>
    if c = '$' && d = '$' then some ([], rest)
    else
      match findDD (d :: rest) with
      | none => none
      | some (a, b) => some (c :: a, b)

/-- Find the first occurrence of the closing delimiter "$"; on success return
the content before it and the remainder after it. -/
def findD : List Char → Option (List Char × List Char)
  | [] => none
  | c :: rest =>
    if c = '$' then some ([], rest)
    else
      match findD rest with
      | none => none
      | some (a, b) => some (c :: a, b)

/-- The scanner of text.replace(/(\$\$[\s\S]*?\$\$|\$[\s\S]*?\$)/g, ...) in
renderContent: at each position the display alternative is tried first, then
the inline alternative; each matched span is pushed and replaced by its
placeholder token; a position with no match emits its character.  idx is the
current length of the span list. -/
def extractAux : Nat → Nat → List Char → List Char × List (List Char)
  | 0, _, s => (s, [])
  | fuel + 1, idx, s =>
    match s with
    | [] => ([], [])
    | c :: rest =>
      if c = '$' then
        match rest with
        | d :: rest2 =>
          if d = '$' then
            match findDD rest2 with
            | some (content, after) =>
              match extractAux fuel (idx + 1) after with
              | (tl, spans) =>
                (phTok idx ++ tl, (toL "$$" ++ content ++ toL "$$") :: spans)
            | none =>
              match extractAux fuel (idx + 1) rest2 with
              | (tl, spans) => (phTok idx ++ tl, toL "$$" :: spans)
          else
            match findD rest with
            | some (content, after) =>
              match extractAux fuel (idx + 1) after with
              | (tl, spans) =>
                (phTok idx ++ tl, (toL "$" ++ content ++ toL "$") :: spans)
            | none =>
              match extractAux fuel idx rest with
              | (tl, spans) => ('$' :: tl, spans)
        | [] => (['$'], [])
      else
        match extractAux fuel idx rest with
        | (tl, spans) => (c :: tl, spans)

/-- extract(text): the shielded text together with the captured math spans in
first-seen order. -/
def extract (s : List Char) : List Char × List (List Char) :=
  extractAux s.length 0 s

/- ------------------------------------------------------------------ -/
/- Math shielding pass (renderContent): restoration.                   -/
/- ------------------------------------------------------------------ -/

/-- GetSubstitution for String.prototype.replace with a string search value:
in the replacement text, dollar-dollar inserts a dollar, dollar-ampersand the
matched text, dollar-backtick the portion before the match, dollar-quote the
portion after; everything else (including dollar-digit, as there are no
capture groups) is literal. -/
def getSubst (matched before after : List Char) : Nat → List Char → List Char
  | 0, r => r
  | _ + 1, [] => []
  | fuel + 1, c :: t =>
    if c = '$' then
      match t with
      | d :: t2 =>
        if d = '$' then '$' :: getSubst matched before after fuel t2
        else if d = '&' then matched ++ getSubst matched before after fuel t2
        else if d = tick then before ++ getSubst matched before after fuel t2
        else if d = quoteC then after ++ getSubst matched before after fuel t2
        else c :: getSubst matched before after fuel t
      | [] => [c]
    else c :: getSubst matched before after fuel t

/-- html.replace(pat, repl) with a string pattern: replace the first
occurrence of pat, expanding dollar escapes in repl; no occurrence leaves the
string unchanged. -/
def replaceFirstStr (s pat repl : List Char) : List Char :=
  match splitAtSub? pat s with
  | none => s
  | some (before, after) =>
    before ++ getSubst pat before after (repl.length + 1) repl ++ after

/-- The forEach loop of renderContent: for each span in order, replace the
first occurrence of its placeholder token in the markup. -/
def restoreAux : List Char → Nat → List (List Char) → List Char
  | html, _, [] => html
  | html, i, b :: bs => restoreAux (replaceFirstStr html (phTok i) b) (i + 1) bs

/-- restore(markup, spans): substitute every recorded span back for its
placeholder token. -/
def restore (html : List Char) (spans : List (List Char)) : List Char :=
  restoreAux html 0 spans

/- ------------------------------------------------------------------ -/
/- markdownToHTML: block rules.                                        -/
/- ------------------------------------------------------------------ -/

/-- The JavaScript dot: take characters up to the first line terminator. -/
def dotTake (s : List Char) : List Char :=
  s.takeWhile (fun c => c != '\n' && c != '\r')

/-- The remainder after dotTake. -/
def dotDrop (s : List Char) : List Char :=
  s.dropWhile (fun c => c != '\n' && c != '\r')

/-- Apply a per-line rewrite to every line of a string: the embedding of one
global multiline replacement whose pattern is anchored at the line start and
whose replacement contains no newline. -/
def lineMap (f : List Char → List Char) (s : List Char) : List Char :=
  List.intercalate ['\n'] ((jsSplitChar '\n' s).map f)

def headingOpen (n : Nat) : List Char := toL "<h" ++ (Nat.repr n).data ++ toL ">"

def headingClose (n : Nat) : List Char := toL "</h" ++ (Nat.repr n).data ++ toL ">"

/-- One heading rule on one line: n hashes and a space become a heading of
level n wrapping the rest of the line matched by the dot. -/
def headingLine (n : Nat) (line : List Char) : List Char :=
  let pre := List.replicate n '#' ++ [spaceC]
  if pre.isPrefixOf line then
    let body := line.drop (n + 1)
    headingOpen n ++ dotTake body ++ headingClose n ++ dotDrop body
  else line

/-- The six heading replacements, applied from level 6 down to level 1. -/
def headingPass (s : List Char) : List Char :=
  lineMap (headingLine 1) (lineMap (headingLine 2) (lineMap (headingLine 3)
    (lineMap (headingLine 4) (lineMap (headingLine 5) (lineMap (headingLine 6) s)))))

/-- The blockquote rule on one line. -/
def quoteLine (line : List Char) : List Char :=
  if (toL "> ").isPrefixOf line then
    let body := line.drop 2
    toL "<blockquote>" ++ dotTake body ++ toL "</blockquote>" ++ dotDrop body
  else line

def quotePass (s : List Char) : List Char := lineMap quoteLine s

/-- escapedCode: the two chained replaces escaping every angle bracket of a
fenced code body. -/
def replaceAllChar (c : Char) (repl : List Char) (s : List Char) : List Char :=
  (s.map (fun x => if x = c then repl else [x])).flatten

def escapeLtGt (s : List Char) : List Char :=
  replaceAllChar '>' (toL "&gt;") (replaceAllChar '<' (toL "&lt;") s)

/-- The fenced-code-block scanner: an opening triple backtick, a language tag
running to the first newline, a non-greedy body up to the next triple
backtick; the body is angle-bracket escaped and trimmed.  A position where
the pattern cannot complete emits one character. -/
def fenceAux : Nat → List Char → List Char
  | 0, s => s
  | _ + 1, [] => []
  | fuel + 1, c :: rest =>
    if (toL "```").isPrefixOf (c :: rest) then
      match splitAtChar? '\n' ((c :: rest).drop 3) with
      | none => c :: fenceAux fuel rest
      | some (lang, afterNl) =>
        match splitAtSub? (toL "```") afterNl with
        | none => c :: fenceAux fuel rest
        | some (code, after) =>
          toL "<pre><code class=\"language-" ++ lang ++ toL "\">" ++
            trimL (escapeLtGt code) ++ toL "</code></pre>" ++ fenceAux fuel after
    else c :: fenceAux fuel rest

def fencePass (s : List Char) : List Char := fenceAux (s.length + 1) s

/-- The table header or separator line shape: after the leading pipe, the
line must run to a final pipe (optionally followed by CR) before its newline,
with a nonempty dot-matched middle. -/
def midOfLine? (line : List Char) : Option (List Char) :=
  if (toL "|\r").isSuffixOf line then
    let mid := line.dropLast.dropLast
    if mid.isEmpty then none
    else if mid.all (· != '\r') then some mid else none
  else if ['|'].isSuffixOf line then
    let mid := line.dropLast
    if mid.isEmpty then none
    else if mid.all (· != '\r') then some mid else none
  else none

/-- Consume one pipe-delimited line followed by its newline; return the
middle between the outer pipes and the remainder after the newline. -/
def parseLinePipe? (s : List Char) : Option (List Char × List Char) :=
  match s with
  | [] => none
  | c :: t =>
    if c = '|' then
      let line := t.takeWhile (· != '\n')
      match t.dropWhile (· != '\n') with
      | _ :: rest2 =>
        match midOfLine? line with
        | some mid => some (mid, rest2)
        | none => none
      | [] => none
    else none

/-- The separator-row capture: optional spaces, at least one dash or colon,
then only dashes, pipes, spaces and colons. -/
def sepGroupOk (mid : List Char) : Bool :=
  match mid.dropWhile (· == spaceC) with
  | [] => false
  | c :: rest =>
    (c = '-' || c = ':') &&
      rest.all (fun x => x = '-' || x = '|' || x = spaceC || x = ':')

/-- The greedy body group of the table pattern: repeatedly consume a line
piece of the form pipe, dot-matched text, pipe, optional CR, optional LF;
return the consumed text and the remainder. -/
def bodyAux : Nat → List Char → List Char × List Char
  | 0, s => ([], s)
  | fuel + 1, s =>
    match s with
    | [] => ([], [])
    | c :: t =>
      if c = '|' then
        let line := t.takeWhile (fun x => x != '\n' && x != '\r')
        if line.contains '|' then
          let k := line.length - (line.reverse.takeWhile (· != '|')).length
          let piece := c :: t.take k
          let rest1 := t.drop k
          match rest1 with
          | '\r' :: rr =>
            match rr with
            | '\n' :: rrr =>
              match bodyAux fuel rrr with
              | (more, fin) => (piece ++ toL "\r\n" ++ more, fin)
            | _ =>
              match bodyAux fuel rr with
              | (more, fin) => (piece ++ ['\r'] ++ more, fin)
          | '\n' :: rr =>
            match bodyAux fuel rr with
            | (more, fin) => (piece ++ ['\n'] ++ more, fin)
          | _ =>
            match bodyAux fuel rest1 with
            | (more, fin) => (piece ++ more, fin)
        else ([], s)
      else ([], s)

def thCell (h : List Char) : List Char := toL "<th>" ++ trimL h ++ toL "</th>"

def tdCell (c : List Char) : List Char := toL "<td>" ++ trimL c ++ toL "</td>"

/-- The replacement function of the table rule: header cells from the header
capture split on pipes with first and last fields dropped; body rows from the
trimmed body split on newlines, each split on pipes with first and last
fields dropped. -/
def tableRepl (header body : List Char) : List Char :=
  let headers := ((slice1m1 (jsSplitChar '|' header)).map thCell).flatten
  let rows := ((jsSplitChar '\n' (trimL body)).map (fun rowStr =>
    toL "<tr>" ++ ((slice1m1 (jsSplitChar '|' rowStr)).map tdCell).flatten ++ toL "</tr>")).flatten
  toL "<table><thead><tr>" ++ headers ++ toL "</tr></thead><tbody>" ++ rows ++
    toL "</tbody></table>"

/-- The table scanner: at a line start, a header line, a separator line whose
capture satisfies sepGroupOk, and a greedy run of body lines. -/
def tableAux : Nat → Bool → List Char → List Char
  | 0, _, s => s
  | _ + 1, _, [] => []
  | fuel + 1, atStart, c :: rest =>
    if atStart then
      match parseLinePipe? (c :: rest) with
      | none => c :: tableAux fuel (c = '\n') rest
      | some (header, rest1) =>
        match parseLinePipe? rest1 with
        | none => c :: tableAux fuel (c = '\n') rest
        | some (sep, rest2) =>
          if sepGroupOk sep then
            match bodyAux (rest2.length + 1) rest2 with
            | (body, rest3) =>
              let endsNl :=
                match body.reverse with
                | [] => true
                | x :: _ => x = '\n'
              tableRepl header body ++ tableAux fuel endsNl rest3
          else c :: tableAux fuel (c = '\n') rest
    else c :: tableAux fuel (c = '\n') rest

def tablePass (s : List Char) : List Char := tableAux (s.length + 1) true s

/-- The unordered-list scanner: at a line start, any whitespace (which may
span blank lines), a star or dash, a space, then the dot-matched item text;
the whole match is replaced by a one-item list. -/
def ulAux : Nat → Bool → List Char → List Char
  | 0, _, s => s
  | _ + 1, _, [] => []
  | fuel + 1, atStart, c :: rest =>
    if atStart then
      match (c :: rest).dropWhile isWs with
      | m :: sp :: t =>
        if (m = '*' || m = '-') && sp = spaceC then
          toL "<ul><li>" ++ dotTake t ++ toL "</li></ul>" ++ ulAux fuel false (dotDrop t)
        else c :: ulAux fuel (c = '\n') rest
      | _ => c :: ulAux fuel (c = '\n') rest
    else c :: ulAux fuel (c = '\n') rest

def ulPass (s : List Char) : List Char := ulAux (s.length + 1) true s

/-- The ordered-list scanner: at a line start, any whitespace, at least one
digit, a dot, a space, then the dot-matched item text; the captured number is
discarded. -/
def olAux : Nat → Bool → List Char → List Char
  | 0, _, s => s
  | _ + 1, _, [] => []
  | fuel + 1, atStart, c :: rest =>
    if atStart then
      let r1 := (c :: rest).dropWhile isWs
      let ds := r1.takeWhile (·.isDigit)
      if ds.isEmpty then c :: olAux fuel (c = '\n') rest
      else
        match r1.dropWhile (·.isDigit) with
        | d :: sp :: t =>
          if d = '.' && sp = spaceC then
            toL "<ol><li>" ++ dotTake t ++ toL "</li></ol>" ++ olAux fuel false (dotDrop t)
          else c :: olAux fuel (c = '\n') rest
        | _ => c :: olAux fuel (c = '\n') rest
    else c :: olAux fuel (c = '\n') rest

def olPass (s : List Char) : List Char := olAux (s.length + 1) true s

/-- One merge replacement: delete every occurrence, found in a single
left-to-right pass, of a closing tag, whitespace, and an opening tag. -/
def mergeAux (cls opn : List Char) : Nat → List Char → List Char
  | 0, s => s
  | _ + 1, [] => []
  | fuel + 1, c :: rest =>
    if cls.isPrefixOf (c :: rest) then
      let r2 := ((c :: rest).drop cls.length).dropWhile isWs
      if opn.isPrefixOf r2 then mergeAux cls opn fuel (r2.drop opn.length)
      else c :: mergeAux cls opn fuel rest
    else c :: mergeAux cls opn fuel rest

def mergePass (cls opn : List Char) (s : List Char) : List Char :=
  mergeAux cls opn (s.length + 1) s

/- ------------------------------------------------------------------ -/
/- markdownToHTML: inline rules.                                       -/
/- ------------------------------------------------------------------ -/

/-- Find the first two-character closer reachable by the dot (no line
terminator may intervene); return content and remainder. -/
def findClose2 (a b : Char) : List Char → Option (List Char × List Char)
  | [] => none
  | [_] => none
  | c :: d :: rest =>
    if c = a && d = b then some ([], rest)
    else if c = '\n' || c = '\r' then none
    else
      match findClose2 a b (d :: rest) with
      | none => none
      | some (x, y) => some (c :: x, y)

/-- Find the first one-character closer reachable by the dot. -/
def findClose1 (a : Char) : List Char → Option (List Char × List Char)
  | [] => none
  | c :: rest =>
    if c = a then some ([], rest)
    else if c = '\n' || c = '\r' then none
    else
      match findClose1 a rest with
      | none => none
      | some (x, y) => some (c :: x, y)

/-- The bold rule: double star, non-greedy dot content, double star. -/
def boldAux : Nat → List Char → List Char
  | 0, s => s
  | _ + 1, [] => []
  | fuel + 1, c :: rest =>
    if c = '*' then
      match rest with
      | d :: rest2 =>
        if d = '*' then
          match findClose2 '*' '*' rest2 with
          | some (content, after) =>
            toL "<strong>" ++ content ++ toL "</strong>" ++ boldAux fuel after
          | none => c :: boldAux fuel rest
        else c :: boldAux fuel rest
      | [] => ['*']
    else c :: boldAux fuel rest

def boldPass (s : List Char) : List Char := boldAux (s.length + 1) s

/-- The italic rule: star, non-greedy dot content, star. -/
def italicAux : Nat → List Char → List Char
  | 0, s => s
  | _ + 1, [] => []
  | fuel + 1, c :: rest =>
    if c = '*' then
      match findClose1 '*' rest with
      | some (content, after) =>
        toL "<em>" ++ content ++ toL "</em>" ++ italicAux fuel after
      | none => c :: italicAux fuel rest
    else c :: italicAux fuel rest

def italicPass (s : List Char) : List Char := italicAux (s.length + 1) s

/-- The strikethrough rule: double tilde, non-greedy dot content, double
tilde. -/
def delAux : Nat → List Char → List Char
  | 0, s => s
  | _ + 1, [] => []
  | fuel + 1, c :: rest =>
    if c = '~' then
      match rest with
      | d :: rest2 =>
        if d = '~' then
          match findClose2 '~' '~' rest2 with
          | some (content, after) =>
            toL "<del>" ++ content ++ toL "</del>" ++ delAux fuel after
          | none => c :: delAux fuel rest
        else c :: delAux fuel rest
      | [] => ['~']
    else c :: delAux fuel rest

def delPass (s : List Char) : List Char := delAux (s.length + 1) s

/-- The styling attributes of the inline-code element. -/
def codeCls : List Char :=
  toL "<code class=\"bg-slate-200 dark:bg-slate-900 text-amber-600 dark:text-amber-400 px-1.5 py-1 rounded text-sm font-mono\">"

/-- The inline-code rule: backtick, at least one non-backtick character,
backtick (the negated class crosses newlines). -/
def codeAux : Nat → List Char → List Char
  | 0, s => s
  | _ + 1, [] => []
  | fuel + 1, c :: rest =>
    if c = tick then
      match splitAtChar? tick rest with
      | some (content, after) =>
        if content.isEmpty then c :: codeAux fuel rest
        else codeCls ++ content ++ toL "</code>" ++ codeAux fuel after
      | none => c :: codeAux fuel rest
    else c :: codeAux fuel rest

def codePass (s : List Char) : List Char := codeAux (s.length + 1) s

/-- The link rule: bracketed nonempty label, parenthesised nonempty url. -/
def linkAux : Nat → List Char → List Char
  | 0, s => s
  | _ + 1, [] => []
  | fuel + 1, c :: rest =>
    if c = '[' then
      match splitAtChar? ']' rest with
      | some (label, r1) =>
        if label.isEmpty then c :: linkAux fuel rest
        else
          match r1 with
          | p :: r2 =>
            if p = '(' then
              match splitAtChar? ')' r2 with
              | some (url, after) =>
                if url.isEmpty then c :: linkAux fuel rest
                else
                  toL "<a href=\"" ++ url ++
                    toL "\" target=\"_blank\" rel=\"noopener noreferrer\" class=\"text-brand hover:underline\">" ++
                    label ++ toL "</a>" ++ linkAux fuel after
              | none => c :: linkAux fuel rest
            else c :: linkAux fuel rest
          | [] => c :: linkAux fuel rest
      | none => c :: linkAux fuel rest
    else c :: linkAux fuel rest

def linkPass (s : List Char) : List Char := linkAux (s.length + 1) s

/- ------------------------------------------------------------------ -/
/- markdownToHTML: paragraph wrapping.                                 -/
/- ------------------------------------------------------------------ -/

/-- Split on blank-line boundaries: a newline, whitespace, and a newline,
the match ending at the last newline of the whitespace run. -/
def paraSplitAux : Nat → List Char → List Char → List (List Char)
  | 0, acc, s => [acc ++ s]
  | _ + 1, acc, [] => [acc]
  | fuel + 1, acc, c :: rest =>
    if c = '\n' then
      let run := rest.takeWhile isWs
      if run.contains '\n' then
        let k := run.length - (run.reverse.takeWhile (· != '\n')).length
        acc :: paraSplitAux fuel [] (rest.drop k)
      else paraSplitAux fuel (acc ++ [c]) rest
    else paraSplitAux fuel (acc ++ [c]) rest

/-- The opening tags recognised as block markup by the paragraph wrapper. -/
def blockNames : List (List Char) :=
  [toL "h1", toL "h2", toL "h3", toL "h4", toL "h5", toL "h6", toL "ul",
   toL "ol", toL "li", toL "blockquote", toL "table", toL "thead",
   toL "tbody", toL "tr", toL "th", toL "td", toL "pre", toL "code"]

/-- Whether a trimmed block already starts with a block-element tag, open or
closing. -/
def isBlockStart (t : List Char) : Bool :=
  match t with
  | '<' :: r =>
    (match r with
     | '/' :: r2 => blockNames.any (fun n => n.isPrefixOf r2)
     | _ => blockNames.any (fun n => n.isPrefixOf r))
  | _ => false

/-- Wrap one block: empty blocks vanish, block markup passes through
untrimmed, anything else is trimmed, its newlines become breaks, and it is
wrapped in a paragraph. -/
def paraWrap (piece : List Char) : List Char :=
  let t := trimL piece
  if t.isEmpty then []
  else if isBlockStart t then piece
  else toL "<p>" ++ replaceAllChar '\n' (toL "<br>") t ++ toL "</p>"

def paraPass (s : List Char) : List Char :=
  ((paraSplitAux (s.length + 1) [] s).map paraWrap).flatten

/- ------------------------------------------------------------------ -/
/- markdownToHTML: the pipeline.                                       -/
/- ------------------------------------------------------------------ -/

/-- markdownToHTML(markdown): headings, fenced code blocks, tables,
blockquotes, lists with same-kind merging, then the inline rules, then
paragraph wrapping, in the order of the source. -/
def markdownToHTML (markdown : List Char) : List Char :=
  paraPass (linkPass (codePass (delPass (italicPass (boldPass
    (mergePass (toL "</ol>") (toL "<ol>")
      (mergePass (toL "</ul>") (toL "<ul>")
        (olPass (ulPass (quotePass (tablePass (fencePass (headingPass markdown)))))))))))))

/- ------------------------------------------------------------------ -/
/- Helper lemmas.                                                      -/
/- ------------------------------------------------------------------ -/

theorem escapeLtGt_cons (c : Char) (t : List Char) :
    escapeLtGt (c :: t) = escapeLtGt [c] ++ escapeLtGt t := by
  simp [escapeLtGt, replaceAllChar]

theorem extractAux_no_dollar (fuel : Nat) :
    ∀ (idx : Nat) (s : List Char), '$' ∉ s → extractAux fuel idx s = (s, []) := by
  induction fuel with
  | zero => intro idx s _; rfl
  | succ n ih =>
    intro idx s h
    cases s with
    | nil => rfl
    | cons c rest =>
      have hc : ¬ c = '$' := fun e => h (e ▸ List.mem_cons_self c rest)
      have hr : '$' ∉ rest := fun m => h (List.mem_cons_of_mem c m)
      simp only [extractAux]
      rw [if_neg hc, ih idx rest hr]

theorem extract_no_dollar (s : List Char) (h : '$' ∉ s) : extract s = (s, []) :=
  extractAux_no_dollar s.length 0 s h

/- ------------------------------------------------------------------ -/
/- Claims.                                                             -/
/- ------------------------------------------------------------------ -/

/-- Claim C1, settled against the code: on the input table the body row is
rendered with cells 1 and 2, but the header row comes out empty, with no
header cell at all.  The header capture of the table pattern already excludes
the outer pipes, so split followed by slice(1, -1) drops the cells a and b
instead of the outer empties; the body rows, whose raw line does include the
outer pipes, are handled correctly. -/
theorem C1_table_header_dropped :
    markdownToHTML (toL "| a | b |\n| --- | --- |\n| 1 | 2 |") =
      toL "<table><thead><tr></tr></thead><tbody><tr><td>1</td><td>2</td></tr></tbody></table>" ∧
    hasSub (toL "<th>") (markdownToHTML (toL "| a | b |\n| --- | --- |\n| 1 | 2 |")) = false :=
  ⟨by decide, by decide⟩

/-- Claim C2: for an input without any dollar character, extraction captures
no span and leaves the text unchanged, so restoring after converting the
shielded text equals converting the input directly. -/
theorem C2_shield_noop (s : List Char) (h : '$' ∉ s) :
    restore (markdownToHTML (extract s).1) (extract s).2 = markdownToHTML s := by
  rw [extract_no_dollar s h]
  rfl

/-- Witness for C2 at the concrete dollar-free input "hello world". -/
theorem C2_shield_noop_witness :
    restore (markdownToHTML (extract (toL "hello world")).1)
        (extract (toL "hello world")).2 =
      markdownToHTML (toL "hello world") :=
  C2_shield_noop (toL "hello world") (by decide)

/-- Claim C3: extraction on the mixed input returns the spans in first-seen
order, with the display span captured whole (in preference to two inline
matches), and the shielded text carries the tokens for indices 0 and 1 at the
corresponding positions. -/
theorem C3_extract_example :
    extract (toL "Inline $x^2$ and block $$y=mx+b$$ end") =
      (toL "Inline ___MATHJAX_PLACEHOLDER___0___MATHJAX_PLACEHOLDER___ and block ___MATHJAX_PLACEHOLDER___1___MATHJAX_PLACEHOLDER___ end",
       [toL "$x^2$", toL "$$y=mx+b$$"]) := by decide

/-- Claim C4, settled against the code: the placeholder token occurs in the
input, placed in the first header cell of a table, yet does not occur in the
converted output: the table rule's header handling deletes the first and last
header cells, sentinel included. -/
theorem C4_placeholder_destroyed :
    hasSub (phTok 0)
        (toL "| ___MATHJAX_PLACEHOLDER___0___MATHJAX_PLACEHOLDER___ | x |\n| --- | --- |\n| 1 | 2 |") = true ∧
    hasSub (phTok 0)
        (markdownToHTML
          (toL "| ___MATHJAX_PLACEHOLDER___0___MATHJAX_PLACEHOLDER___ | x |\n| --- | --- |\n| 1 | 2 |")) = false :=
  ⟨by decide, by decide⟩

/-- Claim C5: the fenced block becomes a code element tagged with language js
whose content is the escaped, trimmed literal; and in general the escaping
rewrites exactly the two angle brackets, character by character, leaving
every other character untouched. -/
theorem C5_code_fence :
    markdownToHTML (toL "```js\n<tag>\n```") =
      toL "<pre><code class=\"language-js\">&lt;tag&gt;</code></pre>" ∧
    ∀ cs : List Char, escapeLtGt cs =
      (cs.map (fun c =>
        if c = '<' then toL "&lt;" else if c = '>' then toL "&gt;" else [c])).flatten := by
  refine ⟨by decide, fun cs => ?_⟩
  induction cs with
  | nil => rfl
  | cons c t ih =>
    rw [escapeLtGt_cons, ih, List.map_cons, List.flatten_cons]
    congr 1
    by_cases h1 : c = '<'
    · subst h1; rfl
    · by_cases h2 : c = '>'
      · subst h2; rfl
      · simp [escapeLtGt, replaceAllChar, h1, h2]

/-- Claim C6: bold is consumed before italic, so the double-asterisk run
becomes a strong element, the single-asterisk run an em element, and no
asterisk remains in the output. -/
theorem C6_bold_italic :
    markdownToHTML (toL "**bold** and *italic*") =
      toL "<p><strong>bold</strong> and <em>italic</em></p>" ∧
    hasSub (toL "*") (markdownToHTML (toL "**bold** and *italic*")) = false :=
  ⟨by decide, by decide⟩

/-- Counterexample to claim C7: an input of two consecutive unordered list
lines whose output still contains a closing list tag followed by whitespace
and an opening list tag.  The first item's text contains literal list-tag
fragments; deleting the occurrence inside the item splices the surrounding
text into a new closing-opening adjacency, and the single left-to-right
replacement pass never revisits it. -/
theorem C7_uncollapsed_cex :
    markdownToHTML (toL "* </u</ul> <ul>l> <ul>\n* c") =
      toL "<ul><li></ul> <ul></li><li>c</li></ul>" ∧
    hasSub (toL "</ul> <ul>") (markdownToHTML (toL "* </u</ul> <ul>l> <ul>\n* c")) = true :=
  ⟨by decide, by decide⟩

/-- Claim C7 as amended: for consecutive list lines of the same kind whose
item text contains no literal list-tag fragments, the adjacent one-item
containers are collapsed into a single container holding all the items, for
the unordered and the ordered kind alike. -/
theorem C7_adjacent_merge :
    markdownToHTML (toL "* a\n* b") = toL "<ul><li>a</li><li>b</li></ul>" ∧
    markdownToHTML (toL "1. x\n2. y") = toL "<ol><li>x</li><li>y</li></ol>" :=
  ⟨by decide, by decide⟩

/-- Claim C8, settled against the code: restoration substitutes the span
through String.replace with a string replacement, whose GetSubstitution
expansion collapses every dollar-dollar pair of the span to a single dollar;
a display-math span is therefore reinserted with inline delimiters, not
verbatim.  A markup without the token is left unchanged, as the claim
states. -/
theorem C8_restore_mangles_display_math :
    restore (phTok 0) [toL "$$y=mx+b$$"] = toL "$y=mx+b$" ∧
    restore (toL "no token here") [toL "$$y=mx+b$$"] = toL "no token here" :=
  ⟨by decide, by decide⟩

/-- Claim C9: the inline-math alternative matches across a line boundary, so
the two lone dollars on different lines delimit one span containing the
newline. -/
theorem C9_inline_math_multiline :
    extract (toL "cost $5\nand $6 more") =
      (toL "cost ___MATHJAX_PLACEHOLDER___0___MATHJAX_PLACEHOLDER___6 more",
       [toL "$5\nand $"]) := by decide

/-- Counterexample to claim C10: the line of seven hashes and a space yields
no level-6 heading at all — the output contains no h6 open tag. -/
theorem C10_no_heading_cex :
    hasSub (toL "<h6>") (markdownToHTML (toL "####### x")) = false := by decide

/-- Claim C10 as amended: every heading rule requires a space immediately
after its hash run, so a line of seven or more hashes matches no heading
level and passes through as literal text, paragraph-wrapped. -/
theorem C10_seven_hashes_paragraph :
    markdownToHTML (toL "####### x") = toL "<p>####### x</p>" := by decide

end KLAI
